import Mathlib

/-!
# Verification of the IBFT consensus-metadata codec (`consensus/ibft/extra.go`)

This file is a shallow embedding of the IBFT extra-data codec of polygon-edge:
the `IstanbulExtra` record, its RLP marshalling/unmarshalling, and the header
extension-field accessors/mutators (`getIbftExtra`, `putIbftExtra`,
`initIbftExtra`, `packFieldIntoIbftExtra`, `packSealIntoIbftExtra`,
`packCommittedSealIntoIbftExtra`, `filterIbftExtraForHash`).

Bytes are modelled as `List Nat` (each entry conceptually `< 256`; where a
branch of the code depends on a byte bound this is carried as an explicit
hypothesis).  Mutation of the Go `*types.Header` is modelled by state passing:
an operation that mutates the header and returns `error` becomes a function
returning `Header × Option Err`, where the returned header is the header
after the call and the `Option Err` component is the returned Go error
(`none` = `nil`).
-/

namespace IbftExtra

/-! ## The wire codec (external collaborator)

Modelled from the spec: the external self-describing wire codec
(the `fastrlp` dependency, which is not part of this repository's source).
Values are byte strings and lists; the marker the code calls `NewNull`
serialises exactly like an empty byte string (`0x80`) and the marker
`NewNullArray` exactly like an empty list (`0xc0`), and the decode side
never distinguishes them, so both are identified with `bytes []` and
`array []` respectively.  `serialize` is the RLP serialiser (`Value.MarshalTo`)
and `parseItem`/`parseRLP` the RLP parser (`Parser.Parse`); `getElems`,
`getBytes`, `getAddr` model `Value.GetElems`, `Value.GetBytes`,
`Value.GetAddr`. -/

/-- An RLP value: a byte string or a list of values. -/
inductive RLPVal where
  | bytes (bs : List Nat) : RLPVal
  | array (items : List RLPVal) : RLPVal
deriving Inhabited

/-- Fueled helper for `beBytes` (the fuel only serves structural
recursion; `beBytes` supplies enough of it). -/
def beBytesAux : Nat → Nat → List Nat
  | 0, _ => []
  | fuel + 1, n => if n = 0 then [] else beBytesAux fuel (n / 256) ++ [n % 256]

/-- Minimal big-endian byte representation of a natural number
(`[]` for `0`, no leading zero bytes). -/
def beBytes (n : Nat) : List Nat := beBytesAux n n

/-- Big-endian value of a byte list. -/
def beVal (l : List Nat) : Nat :=
  l.foldl (fun acc b => acc * 256 + b) 0

/-- RLP serialisation of a byte string: a single byte `< 0x80` stands for
itself, otherwise a length header is prepended (short form for length
`≤ 55`, long form beyond). -/
def serBytes (bs : List Nat) : List Nat :=
  if bs.length = 1 ∧ bs.headI ≤ 127 then bs
  else if bs.length ≤ 55 then (128 + bs.length) :: bs
  else (183 + (beBytes bs.length).length) :: (beBytes bs.length ++ bs)

/-- RLP list header prepended to an already-serialised payload. -/
def serList (payload : List Nat) : List Nat :=
  if payload.length ≤ 55 then (192 + payload.length) :: payload
  else (247 + (beBytes payload.length).length) :: (beBytes payload.length ++ payload)

mutual

/-- RLP serialisation of a value. -/
def serialize : RLPVal → List Nat
  | .bytes bs => serBytes bs
  | .array items => serList (serItems items)

/-- Concatenated serialisation of a list of values (an RLP list payload). -/
def serItems : List RLPVal → List Nat
  | [] => []
  | v :: vs => serialize v ++ serItems vs

end

mutual

/-- Fueled RLP parser: parse one item from the front of the input, returning
the item and the unconsumed rest. -/
def parseItem : Nat → List Nat → Option (RLPVal × List Nat)
  | 0, _ => none
  | _ + 1, [] => none
  | f + 1, b :: rest =>
    if b ≤ 127 then some (.bytes [b], rest)
    else if b ≤ 183 then
      -- short byte string
      let n := b - 128
      if n ≤ rest.length then some (.bytes (rest.take n), rest.drop n) else none
    else if b ≤ 191 then
      -- long byte string
      let nl := b - 183
      if nl ≤ rest.length then
        let n := beVal (rest.take nl)
        let r2 := rest.drop nl
        if n ≤ r2.length then some (.bytes (r2.take n), r2.drop n) else none
      else none
    else if b ≤ 247 then
      -- short list
      let n := b - 192
      if n ≤ rest.length then
        match parseItems f (rest.take n) with
        | some items => some (.array items, rest.drop n)
        | none => none
      else none
    else
      -- long list
      let nl := b - 247
      if nl ≤ rest.length then
        let n := beVal (rest.take nl)
        let r2 := rest.drop nl
        if n ≤ r2.length then
          match parseItems f (r2.take n) with
          | some items => some (.array items, r2.drop n)
          | none => none
        else none
      else none

/-- Fueled RLP parser: parse items until the input is exhausted. -/
def parseItems : Nat → List Nat → Option (List RLPVal)
  | _, [] => some []
  | 0, _ :: _ => none
  | f + 1, b :: rest =>
    match parseItem f (b :: rest) with
    | some (v, r) =>
      match parseItems f r with
      | some vs => some (v :: vs)
      | none => none
    | none => none

end

/-- Parse a whole buffer as a single RLP value. -/
def parseRLP (input : List Nat) : Option RLPVal :=
  match parseItem (2 * input.length + 1) input with
  | some (v, []) => some v
  | _ => none

/-- `Value.GetElems`: succeeds exactly on lists. -/
def RLPVal.getElems : RLPVal → Option (List RLPVal)
  | .array items => some items
  | .bytes _ => none

/-- `Value.GetBytes`: succeeds exactly on byte strings. -/
def RLPVal.getBytes : RLPVal → Option (List Nat)
  | .bytes bs => some bs
  | .array _ => none

/-- `Value.GetAddr`: succeeds exactly on byte strings of exactly 20 bytes. -/
def RLPVal.getAddr : RLPVal → Option (List Nat)
  | .bytes bs => if bs.length = 20 then some bs else none
  | .array _ => none

mutual

/-- Wellformedness of a value for serialisation: every byte-string length
fits in an 8-byte big-endian length header (always true of data produced
by the Go code, whose slice lengths are 64-bit). -/
def wfVal : RLPVal → Prop
  | .bytes bs => bs.length < 256 ^ 8
  | .array items => wfItems items

/-- Wellformedness of a list of values. -/
def wfItems : List RLPVal → Prop
  | [] => True
  | v :: vs => wfVal v ∧ wfItems vs

end

/-! ## Errors

One constructor per distinct error site of `extra.go` (plus `wireCodec` for a
failure of the external parser itself).  In the spec's taxonomy:
`tooShort` is `ExtensionTooShort`; `notEnoughElems` is `MalformedRecord`;
`mismatchValidators` (the "mismatch of RLP type for Validators" message) and
`badAddr` (the `GetAddr` failure on an entry that is not an exactly-20-byte
byte string) together are `InvalidValidatorEncoding`; `failedSeal` is
`InvalidSealEncoding`; `mismatchCommittedSeal` is
`InvalidCommittedSealEncoding`; `badCommittedEntry` and `wireCodec` are
`WireCodecError`. -/

/-- Typed failures of the codec and accessors. -/
inductive Err where
  | wireCodec : Err
  | tooShort (expected actual : Nat) : Err
  | notEnoughElems (found : Nat) : Err
  | mismatchValidators : Err
  | badAddr : Err
  | failedSeal : Err
  | mismatchCommittedSeal : Err
  | badCommittedEntry : Err
deriving Repr, DecidableEq

/-- The spec's `InvalidValidatorEncoding` error kind: the validators element
is not a list, or one of its entries is not an exactly-20-byte address. -/
def Err.isInvalidValidatorEncoding : Err → Bool
  | .mismatchValidators => true
  | .badAddr => true
  | _ => false

/-! ## The `IstanbulExtra` record and its RLP codec -/

/-- `IstanbulExtra` of `extra.go`: validators are `types.Address` values
(20-byte arrays, here byte lists whose length-20 invariant is carried as a
hypothesis where relevant), the proposer seal is a byte string, and the
committed seals a list of byte strings. -/
structure IstanbulExtra where
  Validators : List (List Nat)
  Seal : List Nat
  CommittedSeal : List (List Nat)
deriving Repr, DecidableEq

/-- `IstanbulExtra.MarshalRLPWith`: builds the top-level arena array `vv` by
appending the validators array, the seal (null when empty), and the committed
seals (a null-array marker when the list is empty; otherwise each non-empty
entry goes into the nested `committed` array, while — as in the source — each
empty entry appends a null to the TOP-LEVEL array `vv`, and `committed` is
appended last). -/
def marshalRLPWith (i : IstanbulExtra) : RLPVal :=
  let vals : RLPVal := .array (i.Validators.map RLPVal.bytes)
  let sealV : RLPVal := if i.Seal.length = 0 then .bytes [] else .bytes i.Seal
  if i.CommittedSeal.length = 0 then
    .array [vals, sealV, .array []]
  else
    let committed : RLPVal :=
      .array ((i.CommittedSeal.filter (fun a => ¬a.length = 0)).map RLPVal.bytes)
    let nulls : List RLPVal :=
      (i.CommittedSeal.filter (fun a => a.length = 0)).map (fun _ => RLPVal.bytes [])
    .array ([vals, sealV] ++ nulls ++ [committed])

/-- `types.MarshalRLPTo` specialised to `IstanbulExtra.MarshalRLPWith`:
serialise the arena value and append it to `dst`. -/
def marshalRLPTo (i : IstanbulExtra) (dst : List Nat) : List Nat :=
  dst ++ serialize (marshalRLPWith i)

/-- The validators decode loop: `GetAddr` on each element, failing at the
first element that is not an exactly-20-byte byte string. -/
def decodeAddrs : List RLPVal → Option (List (List Nat))
  | [] => some []
  | v :: vs =>
    match v.getAddr with
    | none => none
    | some a =>
      match decodeAddrs vs with
      | none => none
      | some as => some (a :: as)

/-- The committed-seals decode loop: `GetBytes` on each element, failing at
the first element that is not a byte string. -/
def decodeBytesList : List RLPVal → Option (List (List Nat))
  | [] => some []
  | v :: vs =>
    match v.getBytes with
    | none => none
    | some b =>
      match decodeBytesList vs with
      | none => none
      | some bs => some (b :: bs)

/-- `IstanbulExtra.UnmarshalRLPFrom`: the top-level value must be a list of
exactly 3 elements; element 0 a list of exactly-20-byte addresses, element 1
a byte string, element 2 a list of byte strings. -/
def unmarshalRLPFrom (v : RLPVal) : Except Err IstanbulExtra :=
  match v.getElems with
  | none => .error .wireCodec
  | some elems =>
    if elems.length ≠ 3 then .error (.notEnoughElems elems.length)
    else
      match (elems.getD 0 (.bytes [])).getElems with
      | none => .error .mismatchValidators
      | some vals =>
        match decodeAddrs vals with
        | none => .error .badAddr
        | some validators =>
          match (elems.getD 1 (.bytes [])).getBytes with
          | none => .error .failedSeal
          | some sealBytes =>
            match (elems.getD 2 (.bytes [])).getElems with
            | none => .error .mismatchCommittedSeal
            | some cs =>
              match decodeBytesList cs with
              | none => .error .badCommittedEntry
              | some committed => .ok ⟨validators, sealBytes, committed⟩

/-- `types.UnmarshalRlp` specialised to `IstanbulExtra.UnmarshalRLPFrom`:
parse the input bytes as one RLP value, then decode it. -/
def unmarshalRLP (input : List Nat) : Except Err IstanbulExtra :=
  match parseRLP input with
  | none => .error .wireCodec
  | some v => unmarshalRLPFrom v

/-! ## Header accessors and mutators -/

/-- The block header, restricted to the single field this codec reads and
writes (`types.Header.ExtraData`). -/
structure Header where
  ExtraData : List Nat
deriving Repr, DecidableEq

/-- `IstanbulExtraVanity`: number of extra-data bytes reserved for vanity. -/
def IstanbulExtraVanity : Nat := 32

/-- `IstanbulExtraSeal`: number of extra-data bytes reserved for the seal. -/
def IstanbulExtraSeal : Nat := 65

/-- The `zeroBytes` buffer of `extra.go`. -/
def zeroBytes : List Nat := List.replicate 32 0

/-- The vanity normalisation inlined in `putIbftExtra`: pad the existing
extra data with zeros on the right up to the vanity length, or truncate it
to the vanity length. -/
def ibftVanity (extra : List Nat) : List Nat :=
  if extra.length < IstanbulExtraVanity then
    extra ++ zeroBytes.take (IstanbulExtraVanity - extra.length)
  else extra.take IstanbulExtraVanity

/-- `putIbftExtra`: replace the header's extra data by the normalised vanity
followed by the marshalled record; always returns `nil`. -/
def putIbftExtra (h : Header) (istanbulExtra : IstanbulExtra) : Header × Option Err :=
  ({ ExtraData := marshalRLPTo istanbulExtra (ibftVanity h.ExtraData) }, none)

/-- `initIbftExtra`: write a record with the given validators, empty seal
and empty committed seals. -/
def initIbftExtra (h : Header) (validators : List (List Nat)) : Header × Option Err :=
  putIbftExtra h ⟨validators, [], []⟩

/-- `getIbftExtra`: fail if the extra data is shorter than the vanity
length, otherwise decode everything after the vanity. -/
def getIbftExtra (h : Header) : Except Err IstanbulExtra :=
  if h.ExtraData.length < IstanbulExtraVanity then
    .error (.tooShort IstanbulExtraVanity h.ExtraData.length)
  else
    unmarshalRLP (h.ExtraData.drop IstanbulExtraVanity)

/-- `packFieldIntoIbftExtra`: read, mutate, write; on a read failure the
error is returned and the header is left unchanged. -/
def packFieldIntoIbftExtra (h : Header) (updateFn : IstanbulExtra → IstanbulExtra) :
    Header × Option Err :=
  match getIbftExtra h with
  | .error e => (h, some e)
  | .ok extra => putIbftExtra h (updateFn extra)

/-- `packSealIntoIbftExtra`: replace the seal. -/
def packSealIntoIbftExtra (h : Header) (s : List Nat) : Header × Option Err :=
  packFieldIntoIbftExtra h (fun extra => { extra with Seal := s })

/-- `packCommittedSealIntoIbftExtra`: replace the committed-seal list. -/
def packCommittedSealIntoIbftExtra (h : Header) (seals : List (List Nat)) :
    Header × Option Err :=
  packFieldIntoIbftExtra h (fun extra => { extra with CommittedSeal := seals })

/-- `filterIbftExtraForHash`: read the record and re-initialise the header
with only its validators, clearing seal and committed seals. -/
def filterIbftExtraForHash (h : Header) : Header × Option Err :=
  match getIbftExtra h with
  | .error e => (h, some e)
  | .ok extra => initIbftExtra h extra.Validators

/-- Conditions under which the marshalled record decodes back to itself:
addresses are exactly 20 bytes, committed-seal entries are non-empty (an
empty entry triggers the mis-nesting in `MarshalRLPWith`), and byte-string
lengths fit the 8-byte length headers of the wire format (automatic for Go
slices, whose lengths are 64-bit). -/
def wfExtra (e : IstanbulExtra) : Prop :=
  (∀ a ∈ e.Validators, a.length = 20) ∧ e.Seal.length < 256 ^ 8 ∧
    ∀ s ∈ e.CommittedSeal, s.length ≠ 0 ∧ s.length < 256 ^ 8

/-- A mutation of the header extension field: `packSealIntoIbftExtra`
(`set_seal`) or `packCommittedSealIntoIbftExtra` (`set_committed_seals`). -/
inductive MutOp where
  | setSeal (s : List Nat) : MutOp
  | setCommitted (seals : List (List Nat)) : MutOp

/-- Apply one mutation call to a header. -/
def applyOp (h : Header) : MutOp → Header × Option Err
  | .setSeal s => packSealIntoIbftExtra h s
  | .setCommitted seals => packCommittedSealIntoIbftExtra h seals

/-- Run a sequence of mutation calls, recording the header after each call;
`none` as soon as one call fails. -/
def runOps (h : Header) : List MutOp → Option (List Header)
  | [] => some []
  | op :: ops =>
    match applyOp h op with
    | (h2, none) => (runOps h2 ops).map (h2 :: ·)
    | (_, some _) => none

/-! ## Foundational lemmas about the wire codec -/

theorem beBytesAux_congr : ∀ f g n, n ≤ f → n ≤ g → beBytesAux f n = beBytesAux g n := by
  intro f
  induction f with
  | zero =>
    intro g n hf hg
    have hn : n = 0 := Nat.le_zero.mp hf
    subst hn
    cases g <;> simp [beBytesAux]
  | succ f ih =>
    intro g n hf hg
    by_cases hn : n = 0
    · subst hn
      cases g <;> simp [beBytesAux]
    · obtain ⟨m, rfl⟩ : ∃ m, g = m + 1 := ⟨g - 1, by omega⟩
      simp only [beBytesAux, if_neg hn]
      have hdiv : n / 256 < n := Nat.div_lt_self (by omega) (by omega)
      rw [ih m (n / 256) (by omega) (by omega)]

theorem beBytes_eq_append (n : Nat) (hn : n ≠ 0) :
    beBytes n = beBytes (n / 256) ++ [n % 256] := by
  obtain ⟨m, rfl⟩ : ∃ m, n = m + 1 := ⟨n - 1, by omega⟩
  show beBytesAux (m + 1) (m + 1) = beBytesAux ((m + 1) / 256) ((m + 1) / 256) ++ _
  simp only [beBytesAux, if_neg hn]
  have hdiv : (m + 1) / 256 < m + 1 := Nat.div_lt_self (by omega) (by omega)
  rw [beBytesAux_congr m ((m + 1) / 256) ((m + 1) / 256) (by omega) le_rfl]

theorem beVal_append_singleton (l : List Nat) (b : Nat) :
    beVal (l ++ [b]) = beVal l * 256 + b := by
  simp [beVal, List.foldl_append]

theorem beVal_beBytes : ∀ n, beVal (beBytes n) = n := by
  intro n
  induction n using Nat.strong_induction_on with
  | _ n ih =>
    by_cases hn : n = 0
    · subst hn; rfl
    · rw [beBytes_eq_append n hn, beVal_append_singleton,
        ih (n / 256) (Nat.div_lt_self (by omega) (by omega))]
      omega

theorem beBytes_length_le : ∀ k n, n < 256 ^ k → (beBytes n).length ≤ k := by
  intro k
  induction k with
  | zero =>
    intro n hn
    have : n = 0 := by simpa using hn
    subst this; simp [beBytes, beBytesAux]
  | succ k ih =>
    intro n hn
    by_cases h0 : n = 0
    · subst h0; simp [beBytes, beBytesAux]
    · rw [beBytes_eq_append n h0]
      have : n / 256 < 256 ^ k := by
        have h256 : n < 256 * 256 ^ k := by
          calc n < 256 ^ (k + 1) := hn
          _ = 256 * 256 ^ k := by ring
        exact Nat.div_lt_of_lt_mul h256
      have := ih (n / 256) this
      simp [List.length_append]
      omega

theorem beBytes_length_pos (n : Nat) (hn : n ≠ 0) : 0 < (beBytes n).length := by
  rw [beBytes_eq_append n hn]
  simp

theorem serBytes_length_pos (bs : List Nat) : 0 < (serBytes bs).length := by
  unfold serBytes
  split
  · rename_i h
    rw [h.1]
    norm_num
  · split <;> simp

theorem serList_length_pos (payload : List Nat) : 0 < (serList payload).length := by
  unfold serList
  split <;> simp

theorem serialize_length_pos : ∀ v, 0 < (serialize v).length := by
  intro v
  cases v with
  | bytes bs => simpa [serialize] using serBytes_length_pos bs
  | array items => simpa [serialize] using serList_length_pos (serItems items)

/-! ## Parser step lemmas (one per RLP header-byte class) -/

theorem parseItem_single (f b : Nat) (r : List Nat) (hb : b ≤ 127) :
    parseItem (f + 1) (b :: r) = some (.bytes [b], r) := by
  simp [parseItem, hb]

theorem parseItem_shortBytes (f b : Nat) (r : List Nat) (hb1 : 128 ≤ b) (hb2 : b ≤ 183)
    (hr : b - 128 ≤ r.length) :
    parseItem (f + 1) (b :: r) = some (.bytes (r.take (b - 128)), r.drop (b - 128)) := by
  simp only [parseItem]
  rw [if_neg (by omega), if_pos hb2, if_pos hr]

theorem parseItem_longBytes (f b : Nat) (r : List Nat) (hb1 : 184 ≤ b) (hb2 : b ≤ 191)
    (hnl : b - 183 ≤ r.length) (hn : beVal (r.take (b - 183)) ≤ (r.drop (b - 183)).length) :
    parseItem (f + 1) (b :: r) =
      some (.bytes ((r.drop (b - 183)).take (beVal (r.take (b - 183)))),
        (r.drop (b - 183)).drop (beVal (r.take (b - 183)))) := by
  simp only [parseItem]
  rw [if_neg (by omega), if_neg (by omega), if_pos hb2, if_pos hnl, if_pos hn]

theorem parseItem_shortList (f b : Nat) (r : List Nat) (items : List RLPVal)
    (hb1 : 192 ≤ b) (hb2 : b ≤ 247) (hr : b - 192 ≤ r.length)
    (hp : parseItems f (r.take (b - 192)) = some items) :
    parseItem (f + 1) (b :: r) = some (.array items, r.drop (b - 192)) := by
  simp only [parseItem]
  rw [if_neg (by omega), if_neg (by omega), if_neg (by omega), if_pos hb2, if_pos hr, hp]

theorem parseItem_longList (f b : Nat) (r : List Nat) (items : List RLPVal)
    (hb1 : 248 ≤ b) (hnl : b - 247 ≤ r.length)
    (hn : beVal (r.take (b - 247)) ≤ (r.drop (b - 247)).length)
    (hp : parseItems f ((r.drop (b - 247)).take (beVal (r.take (b - 247)))) = some items) :
    parseItem (f + 1) (b :: r) =
      some (.array items, (r.drop (b - 247)).drop (beVal (r.take (b - 247)))) := by
  simp only [parseItem]
  rw [if_neg (by omega), if_neg (by omega), if_neg (by omega), if_neg (by omega),
    if_pos hnl, if_pos hn, hp]

/-! ## The round-trip of the wire codec -/

theorem parse_serialize_mutual : ∀ f : Nat,
    (∀ (v : RLPVal) (rest : List Nat), wfVal v → 2 * (serialize v).length ≤ f →
      parseItem f (serialize v ++ rest) = some (v, rest))
    ∧ (∀ items : List RLPVal, wfItems items → 2 * (serItems items).length + 1 ≤ f →
      parseItems f (serItems items) = some items) := by
  intro f
  induction f with
  | zero =>
    constructor
    · intro v rest _ hle
      exact absurd hle (by have := serialize_length_pos v; omega)
    · intro items _ hle
      exact absurd hle (by omega)
  | succ f ih =>
    obtain ⟨ihItem, ihItems⟩ := ih
    constructor
    · intro v rest hwf hle
      cases v with
      | bytes bs =>
        simp only [serialize] at hle ⊢
        by_cases h1 : bs.length = 1 ∧ bs.headI ≤ 127
        · obtain ⟨b, rfl⟩ := List.length_eq_one.mp h1.1
          have hb : b ≤ 127 := h1.2
          have hser : serBytes [b] = [b] := by simp [serBytes, hb]
          rw [hser, List.cons_append, List.nil_append]
          exact parseItem_single f b rest hb
        · by_cases h2 : bs.length ≤ 55
          · have hser : serBytes bs = (128 + bs.length) :: bs := by
              rw [serBytes, if_neg h1, if_pos h2]
            rw [hser, List.cons_append]
            rw [parseItem_shortBytes f (128 + bs.length) (bs ++ rest) (by omega) (by omega)
              (by simp)]
            have hn : 128 + bs.length - 128 = bs.length := by omega
            rw [hn, List.take_left, List.drop_left]
          · -- long form
            have hlen : bs.length < 256 ^ 8 := by simpa [wfVal] using hwf
            have hnl8 : (beBytes bs.length).length ≤ 8 := beBytes_length_le 8 bs.length hlen
            have hnl1 : 0 < (beBytes bs.length).length :=
              beBytes_length_pos bs.length (by omega)
            have hser : serBytes bs =
                (183 + (beBytes bs.length).length) :: (beBytes bs.length ++ bs) := by
              rw [serBytes, if_neg h1, if_neg h2]
            rw [hser, List.cons_append, List.append_assoc]
            have hd : 183 + (beBytes bs.length).length - 183 = (beBytes bs.length).length := by
              omega
            rw [parseItem_longBytes f (183 + (beBytes bs.length).length)
              (beBytes bs.length ++ (bs ++ rest)) (by omega) (by omega)
              (by rw [hd]; simp)
              (by rw [hd, List.take_left, List.drop_left, beVal_beBytes]; simp)]
            rw [hd, List.take_left, List.drop_left, beVal_beBytes, List.take_left,
              List.drop_left]
      | array items =>
        have hwf' : wfItems items := by simpa [wfVal] using hwf
        simp only [serialize] at hle ⊢
        by_cases h2 : (serItems items).length ≤ 55
        · have hser : serList (serItems items) =
              (192 + (serItems items).length) :: serItems items := by
            rw [serList, if_pos h2]
          have hfuel : 2 * (serItems items).length + 1 ≤ f := by
            rw [hser] at hle; simp at hle; omega
          rw [hser, List.cons_append]
          have hd : 192 + (serItems items).length - 192 = (serItems items).length := by omega
          rw [parseItem_shortList f (192 + (serItems items).length)
            (serItems items ++ rest) items (by omega) (by omega) (by rw [hd]; simp)
            (by rw [hd, List.take_left]; exact ihItems items hwf' hfuel)]
          rw [hd, List.drop_left]
        · have hnl1 : 0 < (beBytes (serItems items).length).length :=
            beBytes_length_pos (serItems items).length (by omega)
          have hser : serList (serItems items) =
              (247 + (beBytes (serItems items).length).length) ::
                (beBytes (serItems items).length ++ serItems items) := by
            rw [serList, if_neg h2]
          have hfuel : 2 * (serItems items).length + 1 ≤ f := by
            rw [hser] at hle; simp at hle; omega
          rw [hser, List.cons_append, List.append_assoc]
          have hd : 247 + (beBytes (serItems items).length).length - 247 =
              (beBytes (serItems items).length).length := by omega
          rw [parseItem_longList f (247 + (beBytes (serItems items).length).length)
            (beBytes (serItems items).length ++ (serItems items ++ rest)) items (by omega)
            (by rw [hd]; simp)
            (by rw [hd, List.take_left, List.drop_left, beVal_beBytes]; simp)
            (by rw [hd, List.take_left, List.drop_left, beVal_beBytes, List.take_left]
                exact ihItems items hwf' hfuel)]
          rw [hd, List.take_left, List.drop_left, beVal_beBytes, List.drop_left]
    · intro items hwf hle
      cases items with
      | nil => rfl
      | cons v vs =>
        have hlen1 : 0 < (serialize v).length := serialize_length_pos v
        have hcons : serItems (v :: vs) = serialize v ++ serItems vs := by
          simp [serItems]
        have hlen : (serItems (v :: vs)).length =
            (serialize v).length + (serItems vs).length := by
          rw [hcons]; simp
        obtain ⟨a, t, hat⟩ : ∃ a t, serialize v = a :: t := by
          cases hsv : serialize v with
          | nil => rw [hsv] at hlen1; simp at hlen1
          | cons a t => exact ⟨a, t, rfl⟩
        have hwf1 : wfVal v := by simpa [wfItems] using hwf.1
        have hwf2 : wfItems vs := hwf.2
        have hA := ihItem v (serItems vs) hwf1 (by omega)
        have hB := ihItems vs hwf2 (by omega)
        rw [hcons, hat, List.cons_append]
        simp only [parseItems]
        rw [hat, List.cons_append] at hA
        rw [hA]
        simp [hB]

theorem parseRLP_serialize (v : RLPVal) (hwf : wfVal v) :
    parseRLP (serialize v) = some v := by
  unfold parseRLP
  have h := (parse_serialize_mutual (2 * (serialize v).length + 1)).1 v [] hwf (by omega)
  rw [List.append_nil] at h
  rw [h]

/-! ## Lemmas about the `IstanbulExtra` codec -/

theorem marshal_canonical (e : IstanbulExtra) (hcs : ∀ s ∈ e.CommittedSeal, s.length ≠ 0) :
    marshalRLPWith e = .array [.array (e.Validators.map RLPVal.bytes), .bytes e.Seal,
      .array (e.CommittedSeal.map RLPVal.bytes)] := by
  simp only [marshalRLPWith]
  by_cases h0 : e.CommittedSeal.length = 0
  · have hnil : e.CommittedSeal = [] := List.length_eq_zero.mp h0
    rw [if_pos h0, hnil]
    by_cases hs : e.Seal.length = 0
    · have hsnil : e.Seal = [] := List.length_eq_zero.mp hs
      rw [if_pos hs, hsnil]
      simp
    · rw [if_neg hs]
      simp
  · rw [if_neg h0]
    have hf1 : e.CommittedSeal.filter (fun a => ¬a.length = 0) = e.CommittedSeal :=
      List.filter_eq_self.mpr (fun a ha => by simp [hcs a ha])
    have hf2 : e.CommittedSeal.filter (fun a => a.length = 0) = [] :=
      List.filter_eq_nil_iff.mpr (fun a ha => by simp [hcs a ha])
    rw [hf1, hf2]
    by_cases hs : e.Seal.length = 0
    · have hsnil : e.Seal = [] := List.length_eq_zero.mp hs
      rw [if_pos hs, hsnil]
      simp
    · rw [if_neg hs]
      simp

theorem getAddr_length (v : RLPVal) (b : List Nat) (h : v.getAddr = some b) :
    b.length = 20 := by
  cases v with
  | bytes bs =>
    simp only [RLPVal.getAddr] at h
    split at h
    · cases h; assumption
    · cases h
  | array items => cases h

theorem decodeAddrs_map_bytes (l : List (List Nat)) (h20 : ∀ a ∈ l, a.length = 20) :
    decodeAddrs (l.map RLPVal.bytes) = some l := by
  induction l with
  | nil => rfl
  | cons a as ih =>
    have ha : a.length = 20 := h20 a (by simp)
    simp only [List.map_cons, decodeAddrs, RLPVal.getAddr, if_pos ha]
    rw [ih (fun x hx => h20 x (by simp [hx]))]

theorem decodeAddrs_lengths :
    ∀ vals l, decodeAddrs vals = some l → ∀ a ∈ l, a.length = 20 := by
  intro vals
  induction vals with
  | nil =>
    intro l h a ha
    simp only [decodeAddrs] at h
    cases h
    simp at ha
  | cons v vs ih =>
    intro l h a ha
    simp only [decodeAddrs] at h
    cases hga : v.getAddr with
    | none => rw [hga] at h; cases h
    | some b =>
      rw [hga] at h
      cases hd : decodeAddrs vs with
      | none => rw [hd] at h; cases h
      | some bs =>
        rw [hd] at h
        cases h
        rcases List.mem_cons.mp ha with rfl | hmem
        · exact getAddr_length v a hga
        · exact ih bs hd a hmem

theorem decodeBytesList_map_bytes (l : List (List Nat)) :
    decodeBytesList (l.map RLPVal.bytes) = some l := by
  induction l with
  | nil => rfl
  | cons a as ih =>
    simp only [List.map_cons, decodeBytesList, RLPVal.getBytes]
    rw [ih]

theorem unmarshal_canonical (addrs : List (List Nat)) (s : List Nat) (cs : List (List Nat))
    (h20 : ∀ a ∈ addrs, a.length = 20) :
    unmarshalRLPFrom (.array [.array (addrs.map RLPVal.bytes), .bytes s,
      .array (cs.map RLPVal.bytes)]) = .ok ⟨addrs, s, cs⟩ := by
  simp only [unmarshalRLPFrom, RLPVal.getElems, RLPVal.getBytes]
  rw [if_neg (by simp)]
  simp only [List.getD_cons_zero, List.getD_cons_succ, RLPVal.getElems, RLPVal.getBytes]
  rw [decodeAddrs_map_bytes addrs h20, decodeBytesList_map_bytes cs]

theorem wfItems_map_bytes (l : List (List Nat)) (h : ∀ a ∈ l, a.length < 256 ^ 8) :
    wfItems (l.map RLPVal.bytes) := by
  induction l with
  | nil => trivial
  | cons a as ih =>
    exact ⟨h a (by simp), ih (fun x hx => h x (by simp [hx]))⟩

theorem wfVal_marshal (e : IstanbulExtra) (hwf : wfExtra e) : wfVal (marshalRLPWith e) := by
  rw [marshal_canonical e (fun s hs => (hwf.2.2 s hs).1)]
  refine ⟨?_, ?_, ?_, trivial⟩
  · exact wfItems_map_bytes _ (fun a ha => by have := hwf.1 a ha; omega)
  · exact hwf.2.1
  · exact wfItems_map_bytes _ (fun s hs => (hwf.2.2 s hs).2)

theorem unmarshalRLP_marshal (e : IstanbulExtra) (hwf : wfExtra e) :
    unmarshalRLP (serialize (marshalRLPWith e)) = .ok e := by
  unfold unmarshalRLP
  rw [parseRLP_serialize _ (wfVal_marshal e hwf)]
  show unmarshalRLPFrom (marshalRLPWith e) = .ok e
  rw [marshal_canonical e (fun s hs => (hwf.2.2 s hs).1)]
  exact unmarshal_canonical e.Validators e.Seal e.CommittedSeal hwf.1

theorem ibftVanity_length (l : List Nat) : (ibftVanity l).length = 32 := by
  unfold ibftVanity zeroBytes IstanbulExtraVanity
  split
  · simp only [List.length_append, List.length_take, List.length_replicate]
    omega
  · simp only [List.length_take]
    omega

theorem getIbftExtra_putIbftExtra (h : Header) (e : IstanbulExtra) (hwf : wfExtra e) :
    getIbftExtra (putIbftExtra h e).1 = .ok e := by
  show getIbftExtra ⟨marshalRLPTo e (ibftVanity h.ExtraData)⟩ = .ok e
  unfold getIbftExtra marshalRLPTo
  rw [if_neg (by
    simp only [List.length_append, ibftVanity_length]
    unfold IstanbulExtraVanity
    omega)]
  simp only []
  rw [List.drop_left' (by rw [ibftVanity_length]; rfl)]
  exact unmarshalRLP_marshal e hwf

theorem unmarshalRLPFrom_ok_validators (v : RLPVal) (e : IstanbulExtra)
    (h : unmarshalRLPFrom v = .ok e) : ∀ a ∈ e.Validators, a.length = 20 := by
  unfold unmarshalRLPFrom at h
  repeat' split at h
  all_goals cases h
  intro a ha
  exact decodeAddrs_lengths _ _ ‹decodeAddrs _ = some _› a ha

theorem unmarshalRLP_ok_validators (input : List Nat) (e : IstanbulExtra)
    (h : unmarshalRLP input = .ok e) : ∀ a ∈ e.Validators, a.length = 20 := by
  unfold unmarshalRLP at h
  split at h
  · exact absurd h (by simp)
  · exact unmarshalRLPFrom_ok_validators _ _ h

theorem getIbftExtra_ok_validators (h : Header) (e : IstanbulExtra)
    (hok : getIbftExtra h = .ok e) : ∀ a ∈ e.Validators, a.length = 20 := by
  unfold getIbftExtra at hok
  split at hok
  · exact absurd hok (by simp)
  · exact unmarshalRLP_ok_validators _ _ hok

theorem getIbftExtra_ok_length (h : Header) (e : IstanbulExtra)
    (hok : getIbftExtra h = .ok e) : 32 ≤ h.ExtraData.length := by
  unfold getIbftExtra at hok
  split at hok
  · exact absurd hok (by simp)
  · rename_i hlen
    unfold IstanbulExtraVanity at hlen
    omega

theorem unmarshalRLP_ne_tooShort (input : List Nat) (n m : Nat) :
    unmarshalRLP input ≠ .error (.tooShort n m) := by
  intro h
  unfold unmarshalRLP unmarshalRLPFrom at h
  repeat' split at h
  all_goals simp at h

theorem ibftVanity_of_ge (l : List Nat) (hl : 32 ≤ l.length) : ibftVanity l = l.take 32 := by
  unfold ibftVanity IstanbulExtraVanity
  rw [if_neg (by omega)]

theorem ibftVanity_append (van rest : List Nat) (hvan : van.length = 32) :
    ibftVanity (van ++ rest) = van := by
  unfold ibftVanity IstanbulExtraVanity
  rw [if_neg (by simp [hvan])]
  exact List.take_left' hvan

theorem initIbftExtra_eq (h : Header) (vs : List (List Nat)) :
    initIbftExtra h vs =
      (⟨ibftVanity h.ExtraData ++ serialize (marshalRLPWith ⟨vs, [], []⟩)⟩, none) := rfl

theorem filterIbftExtraForHash_eq (h : Header) (extra : IstanbulExtra)
    (hok : getIbftExtra h = .ok extra) :
    filterIbftExtraForHash h =
      (⟨ibftVanity h.ExtraData ++
        serialize (marshalRLPWith ⟨extra.Validators, [], []⟩)⟩, none) := by
  unfold filterIbftExtraForHash
  rw [hok]
  rfl

theorem packFieldIntoIbftExtra_ok (h : Header) (f : IstanbulExtra → IstanbulExtra)
    (extra : IstanbulExtra) (hok : getIbftExtra h = .ok extra) :
    packFieldIntoIbftExtra h f = putIbftExtra h (f extra) := by
  unfold packFieldIntoIbftExtra
  rw [hok]

theorem decodeAddrs_none_of_mem :
    ∀ vals : List RLPVal, (∃ x ∈ vals, x.getAddr = none) → decodeAddrs vals = none := by
  intro vals
  induction vals with
  | nil => intro h; simp at h
  | cons v vs ih =>
    intro h
    obtain ⟨x, hx, hnone⟩ := h
    rcases List.mem_cons.mp hx with rfl | hmem
    · simp only [decodeAddrs, hnone]
    · simp only [decodeAddrs]
      cases hv : v.getAddr with
      | none => rfl
      | some a => rw [ih ⟨x, hmem, hnone⟩]

theorem wfExtra_canon (vs : List (List Nat)) (h20 : ∀ a ∈ vs, a.length = 20) :
    wfExtra ⟨vs, [], []⟩ := by
  refine ⟨h20, by norm_num, by simp⟩

theorem packField_success (h : Header) (f : IstanbulExtra → IstanbulExtra) (h2 : Header)
    (hsucc : packFieldIntoIbftExtra h f = (h2, none)) :
    ∃ extra, getIbftExtra h = .ok extra ∧
      h2.ExtraData = ibftVanity h.ExtraData ++ serialize (marshalRLPWith (f extra)) ∧
      32 ≤ h.ExtraData.length := by
  unfold packFieldIntoIbftExtra at hsucc
  cases hok : getIbftExtra h with
  | error e =>
    rw [hok] at hsucc
    exact absurd (congrArg Prod.snd hsucc) (by simp)
  | ok extra =>
    rw [hok] at hsucc
    refine ⟨extra, rfl, ?_, getIbftExtra_ok_length _ _ hok⟩
    have h2eq : (putIbftExtra h (f extra)).1 = h2 := congrArg Prod.fst hsucc
    rw [← h2eq]
    rfl

/-! ## Claim theorems -/

/-- C1: the round-trip `decode (encode v) = v` FAILS on the code when the
committed-seal list contains an empty entry: for validators
`[replicate 20 1]`, empty seal and committed seals `[[]]`, the encoder
emits the empty entry's null as a fourth top-level element, so decoding the
encoded bytes fails with the 3-element check instead of returning `v`. -/
theorem roundtrip_fails_on_empty_committed_entry :
    unmarshalRLP (marshalRLPTo ⟨[List.replicate 20 1], [], [[]]⟩ []) =
      .error (.notEnoughElems 4) := rfl

/-- C2: the encoder does NOT always produce exactly 3 top-level elements:
with a non-empty committed-seal list containing an empty entry, the empty
entry's null is appended as a sibling of the top-level record (yielding 4
top-level elements) rather than nested inside the committed-seals list. -/
theorem marshal_emits_null_at_top_level :
    marshalRLPWith ⟨[List.replicate 20 1], [], [[], [1]]⟩ =
      .array [.array [.bytes (List.replicate 20 1)], .bytes [], .bytes [],
        .array [.bytes [1]]] := rfl

/-- C5: `putIbftExtra` vanity normalization — against a prior field shorter
than 32 bytes the new first 32 bytes are the prior bytes right-padded with
zeros; against a prior field of 32 bytes or more they are exactly its first
32 bytes, and prior bytes beyond position 32 have no effect at all on the
result. -/
theorem putIbftExtra_vanity_normalization :
    (∀ (h : Header) (e : IstanbulExtra), h.ExtraData.length < 32 →
      (putIbftExtra h e).1.ExtraData.take 32 =
        h.ExtraData ++ List.replicate (32 - h.ExtraData.length) 0)
    ∧ (∀ (h : Header) (e : IstanbulExtra), 32 ≤ h.ExtraData.length →
      (putIbftExtra h e).1.ExtraData.take 32 = h.ExtraData.take 32)
    ∧ (∀ (h h2 : Header) (e : IstanbulExtra), 32 ≤ h.ExtraData.length →
      32 ≤ h2.ExtraData.length → h.ExtraData.take 32 = h2.ExtraData.take 32 →
      putIbftExtra h e = putIbftExtra h2 e) := by
  refine ⟨?_, ?_, ?_⟩
  · intro h e hlt
    show (ibftVanity h.ExtraData ++ _).take 32 = _
    rw [List.take_left' (ibftVanity_length _)]
    unfold ibftVanity zeroBytes IstanbulExtraVanity
    rw [if_pos hlt, List.take_replicate]
    have hmin : min (32 - h.ExtraData.length) 32 = 32 - h.ExtraData.length := by omega
    rw [hmin]
  · intro h e hge
    show (ibftVanity h.ExtraData ++ _).take 32 = _
    rw [List.take_left' (ibftVanity_length _)]
    exact ibftVanity_of_ge _ hge
  · intro h h2 e hge hge2 htake
    unfold putIbftExtra marshalRLPTo
    rw [ibftVanity_of_ge _ hge, ibftVanity_of_ge _ hge2, htake]

/-- C6: `packFieldIntoIbftExtra` is atomic on read failure — when
`getIbftExtra` fails with `e`, the update returns exactly that error and the
header (in particular its extension field) is unchanged. -/
theorem packField_atomic_on_read_failure :
    ∀ (h : Header) (f : IstanbulExtra → IstanbulExtra) (e : Err),
      getIbftExtra h = .error e → packFieldIntoIbftExtra h f = (h, some e) := by
  intro h f e herr
  unfold packFieldIntoIbftExtra
  rw [herr]

/-- C7: `getIbftExtra` fails with the extension-too-short error exactly on
headers whose extension field is shorter than 32 bytes; on a field of 32
bytes or more it never returns that error (though it may fail with a decode
error). -/
theorem getIbftExtra_tooShort_iff :
    ∀ h : Header,
      (h.ExtraData.length < 32 →
        getIbftExtra h = .error (.tooShort 32 h.ExtraData.length))
      ∧ (32 ≤ h.ExtraData.length →
        ∀ n m, getIbftExtra h ≠ .error (.tooShort n m)) := by
  intro h
  constructor
  · intro hlt
    unfold getIbftExtra IstanbulExtraVanity
    rw [if_pos hlt]
  · intro hge n m
    unfold getIbftExtra
    rw [if_neg (by unfold IstanbulExtraVanity; omega)]
    exact unmarshalRLP_ne_tooShort _ n m

/-- C8: decoding a top-level list that does not have exactly 3 elements
fails with the malformed-record error carrying the found count, whatever
the elements are (they are never themselves decoded). -/
theorem unmarshal_requires_three_elements :
    ∀ elems : List RLPVal, elems.length ≠ 3 →
      unmarshalRLPFrom (.array elems) = .error (.notEnoughElems elems.length) := by
  intro elems hne
  unfold unmarshalRLPFrom
  simp only [RLPVal.getElems]
  rw [if_pos hne]

/-- C9: element 0 must be a list (else the validators type-mismatch error),
each of its entries must be exactly a 20-byte byte string (else the address
decode error — both errors are the spec's `InvalidValidatorEncoding` kind;
19- and 21-byte entries fail, with no truncation or padding), and a
successful decode preserves the encoded validator order. -/
theorem unmarshal_validator_checks :
    (∀ (bs : List Nat) (e1 e2 : RLPVal),
      unmarshalRLPFrom (.array [.bytes bs, e1, e2]) = .error .mismatchValidators)
    ∧ (∀ (vals : List RLPVal) (e1 e2 : RLPVal), (∃ x ∈ vals, x.getAddr = none) →
      unmarshalRLPFrom (.array [.array vals, e1, e2]) = .error .badAddr)
    ∧ (∀ a : List Nat, (RLPVal.bytes a).getAddr = none ↔ a.length ≠ 20)
    ∧ (∀ (addrs : List (List Nat)) (s : List Nat) (cs : List (List Nat)),
      (∀ a ∈ addrs, a.length = 20) →
      unmarshalRLPFrom (.array [.array (addrs.map RLPVal.bytes), .bytes s,
        .array (cs.map RLPVal.bytes)]) = .ok ⟨addrs, s, cs⟩)
    ∧ Err.mismatchValidators.isInvalidValidatorEncoding = true
    ∧ Err.badAddr.isInvalidValidatorEncoding = true := by
  refine ⟨?_, ?_, ?_, ?_, rfl, rfl⟩
  · intro bs e1 e2
    unfold unmarshalRLPFrom
    simp only [RLPVal.getElems]
    rw [if_neg (by simp)]
    simp [List.getD_cons_zero, RLPVal.getElems]
  · intro vals e1 e2 hbad
    unfold unmarshalRLPFrom
    simp only [RLPVal.getElems]
    rw [if_neg (by simp)]
    simp only [List.getD_cons_zero, RLPVal.getElems]
    rw [decodeAddrs_none_of_mem vals hbad]
  · intro a
    simp only [RLPVal.getAddr]
    split
    · simp_all
    · simp_all
  · exact fun addrs s cs h20 => unmarshal_canonical addrs s cs h20

/-- C10: the write path never fails — `putIbftExtra` and `initIbftExtra`
always return a `nil` error, whatever the header's prior extension field or
the record being written. -/
theorem put_and_init_never_fail :
    (∀ (h : Header) (e : IstanbulExtra), (putIbftExtra h e).2 = none)
    ∧ ∀ (h : Header) (vs : List (List Nat)), (initIbftExtra h vs).2 = none :=
  ⟨fun _ _ => rfl, fun _ _ => rfl⟩

theorem applyOp_success_take32 (h : Header) (op : MutOp) (h2 : Header)
    (hsucc : applyOp h op = (h2, none)) :
    h2.ExtraData.take 32 = h.ExtraData.take 32 := by
  have key : ∀ f : IstanbulExtra → IstanbulExtra,
      packFieldIntoIbftExtra h f = (h2, none) →
      h2.ExtraData.take 32 = h.ExtraData.take 32 := by
    intro f hp
    obtain ⟨extra, hok, hdata, hlen⟩ := packField_success h f h2 hp
    rw [hdata, List.take_left' (ibftVanity_length _), ibftVanity_of_ge _ hlen]
  cases op with
  | setSeal s => exact key _ hsucc
  | setCommitted seals => exact key _ hsucc

theorem runOps_take32 :
    ∀ (ops : List MutOp) (h : Header) (hs : List Header),
      runOps h ops = some hs →
      ∀ h2 ∈ hs, h2.ExtraData.take 32 = h.ExtraData.take 32 := by
  intro ops
  induction ops with
  | nil =>
    intro h hs hrun h2 hmem
    simp only [runOps] at hrun
    cases hrun
    simp at hmem
  | cons op ops ih =>
    intro h hs hrun h2 hmem
    simp only [runOps] at hrun
    cases hap : applyOp h op with
    | mk hh err =>
      rw [hap] at hrun
      cases err with
      | some e => simp at hrun
      | none =>
        have hrun2 : (runOps hh ops).map (fun x => hh :: x) = some hs := hrun
        cases hro : runOps hh ops with
        | none => rw [hro] at hrun2; simp at hrun2
        | some tl =>
          rw [hro] at hrun2
          simp only [Option.map] at hrun2
          cases hrun2
          have hstep := applyOp_success_take32 h op hh hap
          rcases List.mem_cons.mp hmem with rfl | hmem2
          · exact hstep
          · rw [ih hh tl hro h2 hmem2, hstep]

theorem filter_idempotent_aux (h h1 : Header)
    (hfe : filterIbftExtraForHash h = (h1, none)) :
    filterIbftExtraForHash h1 = (h1, none) := by
  cases hok : getIbftExtra h with
  | error e =>
    unfold filterIbftExtraForHash at hfe
    rw [hok] at hfe
    exact absurd (congrArg Prod.snd hfe) (by simp)
  | ok extra =>
    rw [filterIbftExtraForHash_eq h extra hok] at hfe
    have hh1 : h1 =
        ⟨ibftVanity h.ExtraData ++
          serialize (marshalRLPWith ⟨extra.Validators, [], []⟩)⟩ :=
      (congrArg Prod.fst hfe).symm
    subst hh1
    have hwfc : wfExtra ⟨extra.Validators, [], []⟩ :=
      wfExtra_canon _ (getIbftExtra_ok_validators _ _ hok)
    have hget1 : getIbftExtra
        (⟨ibftVanity h.ExtraData ++
          serialize (marshalRLPWith ⟨extra.Validators, [], []⟩)⟩ : Header) =
        .ok ⟨extra.Validators, [], []⟩ :=
      getIbftExtra_putIbftExtra h _ hwfc
    rw [filterIbftExtraForHash_eq _ _ hget1]
    have hv : ibftVanity
        ((⟨ibftVanity h.ExtraData ++
          serialize (marshalRLPWith ⟨extra.Validators, [], []⟩)⟩ : Header).ExtraData) =
        ibftVanity h.ExtraData :=
      ibftVanity_append _ _ (ibftVanity_length _)
    rw [hv]

theorem filter_depends_only (h : Header) (extra : IstanbulExtra)
    (hok : getIbftExtra h = .ok extra) :
    (filterIbftExtraForHash h).1.ExtraData =
      h.ExtraData.take 32 ++ serialize (marshalRLPWith ⟨extra.Validators, [], []⟩) := by
  rw [filterIbftExtraForHash_eq h extra hok]
  show ibftVanity h.ExtraData ++ _ = _
  rw [ibftVanity_of_ge _ (getIbftExtra_ok_length _ _ hok)]

theorem filter_scenario (h : Header) (vs : List (List Nat)) (sP s1 s2 : List Nat)
    (h20 : ∀ a ∈ vs, a.length = 20) (hsP : sP.length < 256 ^ 8)
    (h1ne : s1.length ≠ 0) (h1lt : s1.length < 256 ^ 8)
    (h2ne : s2.length ≠ 0) (h2lt : s2.length < 256 ^ 8) :
    filterIbftExtraForHash
      (packCommittedSealIntoIbftExtra
        (packSealIntoIbftExtra (initIbftExtra h vs).1 sP).1 [s1, s2]).1
      = ((initIbftExtra h vs).1, none) := by
  have hwf0 : wfExtra ⟨vs, [], []⟩ := wfExtra_canon vs h20
  have hwf1 : wfExtra ⟨vs, sP, []⟩ := ⟨h20, hsP, by simp⟩
  have hwf2 : wfExtra ⟨vs, sP, [s1, s2]⟩ := by
    refine ⟨h20, hsP, ?_⟩
    intro s hs
    rcases List.mem_cons.mp hs with rfl | hs2
    · exact ⟨h1ne, h1lt⟩
    · rcases List.mem_cons.mp hs2 with rfl | hs3
      · exact ⟨h2ne, h2lt⟩
      · simp at hs3
  have hg1 : getIbftExtra (initIbftExtra h vs).1 = .ok ⟨vs, [], []⟩ :=
    getIbftExtra_putIbftExtra h _ hwf0
  have hps : packSealIntoIbftExtra (initIbftExtra h vs).1 sP =
      putIbftExtra (initIbftExtra h vs).1 ⟨vs, sP, []⟩ := by
    unfold packSealIntoIbftExtra
    rw [packFieldIntoIbftExtra_ok _ _ _ hg1]
  have hg2 : getIbftExtra (packSealIntoIbftExtra (initIbftExtra h vs).1 sP).1 =
      .ok ⟨vs, sP, []⟩ := by
    rw [hps]
    exact getIbftExtra_putIbftExtra _ _ hwf1
  have hpc : packCommittedSealIntoIbftExtra
        (packSealIntoIbftExtra (initIbftExtra h vs).1 sP).1 [s1, s2]
      = putIbftExtra (packSealIntoIbftExtra (initIbftExtra h vs).1 sP).1
          ⟨vs, sP, [s1, s2]⟩ := by
    unfold packCommittedSealIntoIbftExtra
    rw [packFieldIntoIbftExtra_ok _ _ _ hg2]
  have hg3 : getIbftExtra (packCommittedSealIntoIbftExtra
        (packSealIntoIbftExtra (initIbftExtra h vs).1 sP).1 [s1, s2]).1 =
      .ok ⟨vs, sP, [s1, s2]⟩ := by
    rw [hpc]
    exact getIbftExtra_putIbftExtra _ _ hwf2
  rw [filterIbftExtraForHash_eq _ _ hg3]
  have e2 : (packSealIntoIbftExtra (initIbftExtra h vs).1 sP).1.ExtraData
      = ibftVanity h.ExtraData ++ serialize (marshalRLPWith ⟨vs, sP, []⟩) := by
    rw [hps]
    show ibftVanity (initIbftExtra h vs).1.ExtraData ++ _ = _
    rw [show (initIbftExtra h vs).1.ExtraData =
        ibftVanity h.ExtraData ++ serialize (marshalRLPWith ⟨vs, [], []⟩) from rfl,
      ibftVanity_append _ _ (ibftVanity_length _)]
  have e3 : (packCommittedSealIntoIbftExtra
        (packSealIntoIbftExtra (initIbftExtra h vs).1 sP).1 [s1, s2]).1.ExtraData
      = ibftVanity h.ExtraData ++ serialize (marshalRLPWith ⟨vs, sP, [s1, s2]⟩) := by
    rw [hpc]
    show ibftVanity (packSealIntoIbftExtra (initIbftExtra h vs).1 sP).1.ExtraData ++ _ = _
    rw [e2, ibftVanity_append _ _ (ibftVanity_length _)]
  have hv : ibftVanity (packCommittedSealIntoIbftExtra
        (packSealIntoIbftExtra (initIbftExtra h vs).1 sP).1 [s1, s2]).1.ExtraData
      = ibftVanity h.ExtraData := by
    rw [e3]
    exact ibftVanity_append _ _ (ibftVanity_length _)
  rw [hv]
  rfl

/-- C3: `filterIbftExtraForHash` is idempotent (a second application returns
the same header and no error); on success its extension field is exactly the
first 32 prior bytes followed by the encoding of the decoded validators with
cleared seals (so it never depends on the prior seal or committed-seal
values); and the init/set-seal/set-committed-seals/canonicalize scenario
yields a header byte-identical to a fresh initialization with the same
validators against the same original vanity bytes. -/
theorem filter_canonicalization_properties :
    (∀ h h1 : Header, filterIbftExtraForHash h = (h1, none) →
      filterIbftExtraForHash h1 = (h1, none))
    ∧ (∀ (h : Header) (extra : IstanbulExtra), getIbftExtra h = .ok extra →
      (filterIbftExtraForHash h).1.ExtraData =
        h.ExtraData.take 32 ++ serialize (marshalRLPWith ⟨extra.Validators, [], []⟩))
    ∧ (∀ (h : Header) (vs : List (List Nat)) (sP s1 s2 : List Nat),
      (∀ a ∈ vs, a.length = 20) → sP.length < 256 ^ 8 →
      s1.length ≠ 0 → s1.length < 256 ^ 8 → s2.length ≠ 0 → s2.length < 256 ^ 8 →
      filterIbftExtraForHash
        (packCommittedSealIntoIbftExtra
          (packSealIntoIbftExtra (initIbftExtra h vs).1 sP).1 [s1, s2]).1
        = ((initIbftExtra h vs).1, none)) :=
  ⟨filter_idempotent_aux, filter_depends_only, filter_scenario⟩

/-- C4: for a header with an existing 32-byte vanity prefix `p`, any
sequence of successful `packSealIntoIbftExtra` / `packCommittedSealIntoIbftExtra`
calls leaves the first 32 bytes of the extension field equal to `p` after
every call. -/
theorem vanity_preserved_under_mutation :
    ∀ (h : Header) (p : List Nat) (ops : List MutOp) (hs : List Header),
      32 ≤ h.ExtraData.length → p = h.ExtraData.take 32 →
      runOps h ops = some hs →
      ∀ h2 ∈ hs, h2.ExtraData.take 32 = p := by
  intro h p ops hs hge hp hrun h2 hmem
  rw [hp]
  exact runOps_take32 ops h hs hrun h2 hmem

/-! ## Witnesses -/

set_option maxRecDepth 1000000 in
/-- Witness for C3 at a concrete header (`[5, 6]` prior extra data, one
validator, a 65-byte seal, two committed seals). -/
theorem filter_canonicalization_properties_witness :
    filterIbftExtraForHash
        ((filterIbftExtraForHash (initIbftExtra ⟨[5, 6]⟩ [List.replicate 20 1]).1).1) =
      ((filterIbftExtraForHash (initIbftExtra ⟨[5, 6]⟩ [List.replicate 20 1]).1).1, none)
    ∧ (filterIbftExtraForHash (initIbftExtra ⟨[5, 6]⟩ [List.replicate 20 1]).1).1.ExtraData =
        (initIbftExtra ⟨[5, 6]⟩ [List.replicate 20 1]).1.ExtraData.take 32 ++
          serialize (marshalRLPWith ⟨[List.replicate 20 1], [], []⟩)
    ∧ filterIbftExtraForHash
        (packCommittedSealIntoIbftExtra
          (packSealIntoIbftExtra (initIbftExtra ⟨[5, 6]⟩ [List.replicate 20 1]).1
            (List.replicate 65 7)).1 [[1], [2]]).1
        = ((initIbftExtra ⟨[5, 6]⟩ [List.replicate 20 1]).1, none) :=
  ⟨filter_canonicalization_properties.1 (initIbftExtra ⟨[5, 6]⟩ [List.replicate 20 1]).1 _
      (by decide),
   filter_canonicalization_properties.2.1 (initIbftExtra ⟨[5, 6]⟩ [List.replicate 20 1]).1
      ⟨[List.replicate 20 1], [], []⟩ rfl,
   filter_canonicalization_properties.2.2 ⟨[5, 6]⟩ [List.replicate 20 1]
      (List.replicate 65 7) [1] [2] (by decide) (by decide) (by decide) (by decide)
      (by decide) (by decide)⟩

set_option maxRecDepth 1000000 in
/-- Witness for C4: after the second of two successful mutation calls on a
concretely initialised header, the 32-byte vanity prefix is preserved. -/
theorem vanity_preserved_under_mutation_witness :
    (((runOps (initIbftExtra ⟨[5, 6]⟩ [List.replicate 20 1]).1
        [MutOp.setSeal (List.replicate 65 7),
          MutOp.setCommitted [[1], [2]]]).getD []).getD 1 ⟨[]⟩).ExtraData.take 32 =
      (initIbftExtra ⟨[5, 6]⟩ [List.replicate 20 1]).1.ExtraData.take 32 :=
  vanity_preserved_under_mutation (initIbftExtra ⟨[5, 6]⟩ [List.replicate 20 1]).1
    ((initIbftExtra ⟨[5, 6]⟩ [List.replicate 20 1]).1.ExtraData.take 32)
    [MutOp.setSeal (List.replicate 65 7), MutOp.setCommitted [[1], [2]]]
    ((runOps (initIbftExtra ⟨[5, 6]⟩ [List.replicate 20 1]).1
        [MutOp.setSeal (List.replicate 65 7), MutOp.setCommitted [[1], [2]]]).getD [])
    (by decide) rfl (by decide)
    (((runOps (initIbftExtra ⟨[5, 6]⟩ [List.replicate 20 1]).1
        [MutOp.setSeal (List.replicate 65 7),
          MutOp.setCommitted [[1], [2]]]).getD []).getD 1 ⟨[]⟩)
    (by decide)

set_option maxRecDepth 1000000 in
/-- Witness for C5 at a 1-byte, a 40-byte and a 34-byte prior field. -/
theorem putIbftExtra_vanity_normalization_witness :
    (putIbftExtra ⟨[9]⟩ ⟨[], [], []⟩).1.ExtraData.take 32 = [9] ++ List.replicate 31 0
    ∧ (putIbftExtra ⟨List.replicate 40 3⟩ ⟨[], [], []⟩).1.ExtraData.take 32 =
        (List.replicate 40 3).take 32
    ∧ putIbftExtra ⟨List.replicate 40 3⟩ ⟨[], [], []⟩ =
        putIbftExtra ⟨List.replicate 32 3 ++ [7, 7]⟩ ⟨[], [], []⟩ :=
  ⟨putIbftExtra_vanity_normalization.1 ⟨[9]⟩ ⟨[], [], []⟩ (by decide),
   putIbftExtra_vanity_normalization.2.1 ⟨List.replicate 40 3⟩ ⟨[], [], []⟩ (by decide),
   putIbftExtra_vanity_normalization.2.2 ⟨List.replicate 40 3⟩
      ⟨List.replicate 32 3 ++ [7, 7]⟩ ⟨[], [], []⟩ (by decide) (by decide) (by decide)⟩

/-- Witness for C6 at a 3-byte extension field: the read error is returned
and the header is unchanged. -/
theorem packField_atomic_on_read_failure_witness :
    packFieldIntoIbftExtra ⟨[1, 2, 3]⟩ (fun e => e) = (⟨[1, 2, 3]⟩, some (.tooShort 32 3)) :=
  packField_atomic_on_read_failure ⟨[1, 2, 3]⟩ (fun e => e) (.tooShort 32 3) rfl

/-- Witness for C7 at a 31-byte field (fails `tooShort`) and a 32-byte field
(never `tooShort`). -/
theorem getIbftExtra_tooShort_iff_witness :
    getIbftExtra ⟨List.replicate 31 9⟩ = .error (.tooShort 32 31)
    ∧ ∀ n m, getIbftExtra ⟨List.replicate 32 9⟩ ≠ .error (.tooShort n m) :=
  ⟨(getIbftExtra_tooShort_iff ⟨List.replicate 31 9⟩).1 (by decide),
   fun n m => (getIbftExtra_tooShort_iff ⟨List.replicate 32 9⟩).2 (by decide) n m⟩

/-- Witness for C8 at 2- and 4-element top-level records. -/
theorem unmarshal_requires_three_elements_witness :
    unmarshalRLPFrom (.array [.bytes [], .bytes []]) = .error (.notEnoughElems 2)
    ∧ unmarshalRLPFrom (.array [.bytes [], .bytes [], .bytes [], .bytes []]) =
        .error (.notEnoughElems 4) :=
  ⟨unmarshal_requires_three_elements [.bytes [], .bytes []] (by decide),
   unmarshal_requires_three_elements [.bytes [], .bytes [], .bytes [], .bytes []]
      (by decide)⟩

/-- Witness for C9: a non-list validators element, a 19-byte and a 21-byte
entry, and a successful ordered decode of two validators. -/
theorem unmarshal_validator_checks_witness :
    unmarshalRLPFrom (.array [.bytes [1, 2], .bytes [], .bytes []]) =
      .error .mismatchValidators
    ∧ unmarshalRLPFrom (.array [.array [.bytes (List.replicate 19 1)], .bytes [],
        .bytes []]) = .error .badAddr
    ∧ unmarshalRLPFrom (.array [.array [.bytes (List.replicate 21 1)], .bytes [],
        .bytes []]) = .error .badAddr
    ∧ unmarshalRLPFrom (.array [.array ([List.replicate 20 1,
        List.replicate 20 2].map RLPVal.bytes), .bytes [7],
        .array ([[8]].map RLPVal.bytes)]) =
        .ok ⟨[List.replicate 20 1, List.replicate 20 2], [7], [[8]]⟩ :=
  ⟨unmarshal_validator_checks.1 [1, 2] (.bytes []) (.bytes []),
   unmarshal_validator_checks.2.1 [.bytes (List.replicate 19 1)] (.bytes []) (.bytes [])
      ⟨.bytes (List.replicate 19 1), List.mem_singleton_self _, rfl⟩,
   unmarshal_validator_checks.2.1 [.bytes (List.replicate 21 1)] (.bytes []) (.bytes [])
      ⟨.bytes (List.replicate 21 1), List.mem_singleton_self _, rfl⟩,
   unmarshal_validator_checks.2.2.2.1 [List.replicate 20 1, List.replicate 20 2] [7] [[8]]
      (by decide)⟩

end IbftExtra
